import Mathlib

/-!
Verification of the godsong repository's notation decoding state machine.

The repository converts TempleOS "GodSong" melody strings into LilyPond and
PMX notation, and contains a random melody generator.  We embed the three
relevant C translation units:

* `Godsong.LP`  — `src/converters/godsong2lilypond.c` (`write_note` and the
  driver loop of `main`),
* `Godsong.PMX` — `src/converters/godsong2pmx.c` (`write_note` and `main`),
* `Godsong.Gen` — `src/generators/godsong.c` (`insert_note`, `godsong`).

Strings are embedded as `List Char`; the C string terminator `'\0'` is
represented by the end of the list, and the value of `*song` at the end of a
string is modelled as `nulChar`.  Printing to the output file is modelled by
accumulating a list of output fragments; the note fragment records exactly the
fields that the C `fprintf` call prints (plus, for the LilyPond converter, the
triplet position `notes_in_triplet` in force when the note is printed, which
the C code uses to decide bracket placement).
-/

set_option maxHeartbeats 1000000

namespace Godsong

/-- C `isdigit` restricted to the ASCII digits, as used by the converters. -/
def isDigitC (c : Char) : Bool := decide ('0' ≤ c) && decide (c ≤ '9')

/-- The `int` value of `*song - '0'`. -/
def digitVal (c : Char) : Int := (c.toNat : Int) - 48

/-- C `tolower` for ASCII. -/
def tolowerC (c : Char) : Char :=
  if 'A' ≤ c ∧ c ≤ 'Z' then Char.ofNat (c.toNat + 32) else c

/-- C `isspace` for the default locale. -/
def isSpaceC (c : Char) : Bool :=
  c = ' ' || c = '\t' || c = '\n' || c = '\x0b' || c = '\x0c' || c = '\r'

/--
`read_godsong` (identical in both converters): read the input, dropping every
space character except newlines.  Reading the raw text into memory is I/O; the
whitespace-stripping transformation it applies is the part embedded here.
-/
def read_godsong (s : List Char) : List Char :=
  s.filter (fun c => c = '\n' || !isSpaceC c)

/-- `is_duration_specifier`, with the source's duplicated `WHOLE` test kept. -/
def is_duration_specifier (c : Char) : Bool :=
  c = 'w' || c = 'w' || c = 'h' || c = 'q' || c = 'e' || c = 's'

/-- `is_accidental`. -/
def is_accidental (c : Char) : Bool := c = '#' || c = 'b'

/-- The `'\0'` character read past the end of a C string. -/
def nulChar : Char := Char.ofNat 0

/-- Result of one `write_note` call: `NULL` at end of input, `NULL` after the
invalid-note warning (carrying the offending character), or the advanced
`song` pointer. -/
inductive StepRes where
  | endOfInput
  | error (c : Char)
  | ok (rest : List Char)
deriving DecidableEq, Repr

/-- `if (isdigit(*song)) v = *song++ - '0';` (part of the meter branch). -/
def meterDigit (s : List Char) (v : Int) : List Char × Int :=
  match s with
  | c :: r => if isDigitC c then (r, digitVal c) else (c :: r, v)
  | [] => ([], v)

/-- `if (*song == '/') song++;` (part of the meter branch). -/
def meterSlash (s : List Char) : List Char :=
  match s with
  | c :: r => if c = '/' then r else c :: r
  | [] => []

/-- The body of the `'M'` branch of `write_note` (textually identical in both
converters): optional top digit, optional `'/'`, optional bottom digit. -/
def consumeMeter (s : List Char) (top bottom : Int) : List Char × Int × Int :=
  let a := meterDigit s top
  let b := meterSlash a.1
  let c := meterDigit b bottom
  (c.1, a.2, c.2)

theorem meterDigit_length_le (s : List Char) (v : Int) :
    (meterDigit s v).1.length ≤ s.length := by
  rcases s with _ | ⟨c, r⟩ <;> simp [meterDigit]
  split <;> simp

theorem meterSlash_length_le (s : List Char) :
    (meterSlash s).length ≤ s.length := by
  rcases s with _ | ⟨c, r⟩ <;> simp [meterSlash]
  split <;> simp

theorem consumeMeter_length_le (s : List Char) (top bottom : Int) :
    (consumeMeter s top bottom).1.length ≤ s.length := by
  unfold consumeMeter
  calc (meterDigit (meterSlash (meterDigit s top).1) bottom).1.length
      ≤ (meterSlash (meterDigit s top).1).length := meterDigit_length_le _ _
    _ ≤ (meterDigit s top).1.length := meterSlash_length_le _
    _ ≤ s.length := meterDigit_length_le _ _

namespace LP

/-- `get_lilypond_duration`.  The `default` case of the C `switch` calls
`abort`; callers guard with `is_duration_specifier`, so it is unreachable. -/
def get_lilypond_duration : Char → String
  | 'w' => "1"
  | 'h' => "2"
  | 'q' => "4"
  | 'e' => "8"
  | 's' => "16"
  | _ => ""

/-- `get_lilypond_accidental`; the `default` case is unreachable (guarded by
`is_accidental`). -/
def get_lilypond_accidental : Char → String
  | '#' => "is"
  | 'b' => "es"
  | _ => ""

/-- One printed LilyPond note: the fields of the `fprintf` in `write_note`,
plus `tripletPos`, the value of `notes_in_triplet` at the print point when
`in_triplet` is set (0 when not in a triplet). -/
structure NoteEvent where
  pitch : Char
  accidental : String
  octave : Int
  duration : String
  dots : String
  tie : String
  tripletPos : Nat
deriving DecidableEq, Repr

/-- Output fragments printed by `write_note` and the driver loop. -/
inductive Frag where
  | meter (top bottom : Int)
  | tupletOpen
  | note (ev : NoteEvent)
  | tupletClose
  | newline
deriving DecidableEq, Repr

/-- The persistent state of `godsong2lilypond.c`: the function-local statics
of `write_note` plus the globals `g_meter_top`/`g_meter_bottom`. -/
structure St where
  in_triplet : Bool
  notes_in_triplet : Nat
  duration : String
  octave : Int
  meter_top : Int
  meter_bottom : Int
deriving DecidableEq, Repr

/-- Program-start values: `in_triplet = false`, `notes_in_triplet = 0`,
`duration = ""`, `octave = 4`, meter `4/4`. -/
def initSt : St := ⟨false, 0, "", 4, 4, 4⟩

/-- Per-call transient values of `write_note` (`tie`, `dots`, `accidental`),
initialised to empty strings on each call. -/
structure Trans where
  tie : String
  dots : String
  accidental : String
deriving DecidableEq, Repr

def initTrans : Trans := ⟨"", "", ""⟩

/--
The prefix-modifier loop (`for (;;) { ... }`) of `write_note`: consume tie,
meter, dot, triplet, octave-digit, duration-letter and accidental tokens until
some other character is reached.  The branch order is the source's.

The first argument is recursion fuel, needed only to make the definition
structurally recursive; every iteration of the C loop consumes at least one
character, so fuel `s.length` (what `write_note` passes) always suffices, and
the fuel-exhaustion branch is unreachable.
-/
def consumeMods : Nat → List Char → Trans → St → List Frag →
    List Char × Trans × St × List Frag
  | 0, s, tr, st, out => (s, tr, st, out)
  | fuel + 1, s, tr, st, out =>
    match s with
    | [] => ([], tr, st, out)
    | c :: rest =>
      if c = '(' then
        consumeMods fuel rest { tr with tie := "~" } st out
      else if c = 'M' then
        let m := consumeMeter rest st.meter_top st.meter_bottom
        consumeMods fuel m.1 tr
          { st with meter_top := m.2.1, meter_bottom := m.2.2 }
          (out ++ [Frag.meter m.2.1 m.2.2])
      else if c = '.' then
        consumeMods fuel rest { tr with dots := "." } st out
      else if c = 't' then
        consumeMods fuel rest tr { st with in_triplet := true } out
      else if isDigitC c then
        consumeMods fuel rest tr { st with octave := digitVal c } out
      else if is_duration_specifier c then
        consumeMods fuel rest tr { st with duration := get_lilypond_duration c } out
      else if is_accidental c then
        consumeMods fuel rest { tr with accidental := get_lilypond_accidental c } st out
      else
        (c :: rest, tr, st, out)

/-- One call of the LilyPond `write_note`, on the persistent state `st`.
Returns the C return value, the new persistent state, and the fragments
printed during the call. -/
def write_note (song : List Char) (st : St) : StepRes × St × List Frag :=
  match song with
  | [] => (StepRes.endOfInput, st, [])
  | _ :: _ =>
    let m := consumeMods song.length song initTrans st []
    let tr := m.2.1
    let st1 := m.2.2.1
    let out := m.2.2.2
    match m.1 with
    | [] => (StepRes.error nulChar, st1, out)
    | c :: rest =>
      if c < 'A' ∨ 'G' < c then
        (StepRes.error c, st1, out)
      else
        let note := tolowerC c
        let nit := if st1.in_triplet then st1.notes_in_triplet + 1
                   else st1.notes_in_triplet
        let ev : NoteEvent :=
          ⟨note, tr.accidental, st1.octave, st1.duration, tr.dots, tr.tie,
           if st1.in_triplet then nit else 0⟩
        let out1 := out
          ++ (if st1.in_triplet ∧ nit = 1 then [Frag.tupletOpen] else [])
          ++ [Frag.note ev]
          ++ (if st1.in_triplet ∧ nit = 3 then [Frag.tupletClose] else [])
        let st2 :=
          if st1.in_triplet ∧ nit = 3 then
            { st1 with in_triplet := false, notes_in_triplet := 0 }
          else
            { st1 with notes_in_triplet := nit }
        (StepRes.ok rest, st2, out1)

theorem consumeMods_length_le (fuel : Nat) (s : List Char) (tr : Trans)
    (st : St) (out : List Frag) :
    (consumeMods fuel s tr st out).1.length ≤ s.length := by
  induction fuel generalizing s tr st out with
  | zero => simp [consumeMods]
  | succ fuel ih =>
    rcases s with _ | ⟨c, rest⟩
    · simp [consumeMods]
    · rw [consumeMods]
      have hmet := consumeMeter_length_le rest st.meter_top st.meter_bottom
      split_ifs <;>
        first
          | (exact le_refl _)
          | (refine Nat.le_trans (ih ..) ?_
             simp only [List.length_cons]
             omega)

theorem write_note_ok_length (song rest : List Char) (st st' : St)
    (fr : List Frag) (h : write_note song st = (StepRes.ok rest, st', fr)) :
    rest.length < song.length := by
  match song with
  | [] => simp [write_note] at h
  | c0 :: s0 =>
    have hm := consumeMods_length_le (c0 :: s0).length (c0 :: s0) initTrans st []
    rw [write_note] at h
    simp only at h
    rcases hc : (consumeMods (c0 :: s0).length (c0 :: s0) initTrans st []).1
      with _ | ⟨c, r⟩
    · rw [hc] at h
      simp at h
    · rw [hc] at h
      simp only at h
      split at h
      · simp at h
      · simp only [Prod.mk.injEq, StepRes.ok.injEq] at h
        obtain ⟨h1, -, -⟩ := h
        subst h1
        rw [hc] at hm
        simp only [List.length_cons] at hm ⊢
        omega

/--
The driver loop of `main`: call `write_note` until it returns `NULL`, and
after every successful call skip (printing a newline for) each `'\n'` at the
cursor.  The result is the printed fragments, the final persistent state, and
(when the `NULL` came from the invalid-note branch) the offending character.

The fuel argument only makes the recursion structural: each successful
`write_note` call consumes at least one character, so fuel
`song.length + 1` (what `decode` passes) always suffices.
-/
def run : Nat → List Char → St → List Frag × St × Option Char
  | 0, _, st => ([], st, none)
  | fuel + 1, song, st =>
    match write_note song st with
    | (StepRes.endOfInput, st1, fr) => (fr, st1, none)
    | (StepRes.error c, st1, fr) => (fr, st1, some c)
    | (StepRes.ok rest, st1, fr) =>
      let nl : List Frag :=
        (rest.takeWhile (fun c => c = '\n')).map (fun _ => Frag.newline)
      let r := run fuel (rest.dropWhile (fun c => c = '\n')) st1
      (fr ++ nl ++ r.1, r.2)

/-- The note events among a list of printed fragments, in print order. -/
def events (fr : List Frag) : List NoteEvent :=
  fr.filterMap (fun f => match f with | Frag.note e => some e | _ => none)

/-- Decode a flattened song (as `main` does after `read_godsong`), starting
from program start. -/
def runList (s : List Char) : List Frag × St × Option Char :=
  run (s.length + 1) s initSt

/-- Decode a raw input string the way the program does: strip insignificant
whitespace (`read_godsong`) and run the `main` loop from program start. -/
def decode (s : String) : List Frag × St × Option Char :=
  runList (read_godsong s.toList)

def decodeEvents (s : String) : List NoteEvent := events (decode s).1

def decodeSt (s : String) : St := (decode s).2.1

def decodeErr (s : String) : Option Char := (decode s).2.2

end LP

namespace PMX

/-- `get_pmx_duration`; the `default` case of the C `switch` calls `abort`
(guarded by `is_duration_specifier`, so unreachable). -/
def get_pmx_duration : Char → String
  | 'w' => "0"
  | 'h' => "2"
  | 'q' => "4"
  | 'e' => "8"
  | 's' => "1"
  | _ => ""

/-- `is_duration_modifier`. -/
def is_duration_modifier (c : Char) : Bool := c = 't' || c = '.'

/-- `get_pmx_duration_modifier`; the `default` case is unreachable (guarded
by `is_duration_modifier`). -/
def get_pmx_duration_modifier : Char → String
  | 't' => "x3"
  | '.' => "d"
  | _ => ""

/-- `get_pmx_accidental`; the `default` case is unreachable (guarded by
`is_accidental`). -/
def get_pmx_accidental : Char → String
  | '#' => "s"
  | 'b' => "f"
  | _ => ""

/-- One printed PMX note: the fields of the `fprintf` in `write_note`, plus
the tie parentheses printed around it (`tieOpen` records that `"( "` was
printed before the note, i.e. `tie_status == TIE_STATUS_OPEN`; `tieClose`
that `" )"` was printed after it, i.e. `tie_status == TIE_STATUS_CLOSE`). -/
structure NoteEvent where
  pitch : Char
  duration : String
  octave : Int
  durationModifier : String
  accidental : String
  tieOpen : Bool
  tieClose : Bool
deriving DecidableEq, Repr

/-- Output fragments printed by the PMX `write_note` and driver loop
(`staffBreak` is the `"/\n"` printed by `main` at a newline). -/
inductive Frag where
  | meter (top bottom : Int)
  | note (ev : NoteEvent)
  | staffBreak
deriving DecidableEq, Repr

/-- The persistent state of `godsong2pmx.c`: the function-local statics of
`write_note` (`tie_status` with `0 = NONE`, `1 = CLOSE`, `2 = OPEN`;
`duration`; `octave`) plus the globals `g_meter_top`/`g_meter_bottom`. -/
structure St where
  tie_status : Nat
  duration : String
  octave : Int
  meter_top : Int
  meter_bottom : Int
deriving DecidableEq, Repr

/-- Program-start values: `tie_status = TIE_STATUS_NONE`, `duration = ""`,
`octave = 4`, meter `4/4`. -/
def initSt : St := ⟨0, "", 4, 4, 4⟩

/-- Per-call transient values of the PMX `write_note`
(`duration_modifier` and `accidental`), empty on each call. -/
structure Trans where
  duration_modifier : String
  accidental : String
deriving DecidableEq, Repr

def initTrans : Trans := ⟨"", ""⟩

/--
The prefix-modifier loop of the PMX `write_note`, in the source's branch
order: tie, meter, octave digit, duration letter, duration modifier
(`'t'`/`'.'`, transient), accidental.  Fuel as in `LP.consumeMods`.
-/
def consumeMods : Nat → List Char → Trans → St → List Frag →
    List Char × Trans × St × List Frag
  | 0, s, tr, st, out => (s, tr, st, out)
  | fuel + 1, s, tr, st, out =>
    match s with
    | [] => ([], tr, st, out)
    | c :: rest =>
      if c = '(' then
        consumeMods fuel rest tr { st with tie_status := 2 } out
      else if c = 'M' then
        let m := consumeMeter rest st.meter_top st.meter_bottom
        consumeMods fuel m.1 tr
          { st with meter_top := m.2.1, meter_bottom := m.2.2 }
          (out ++ [Frag.meter m.2.1 m.2.2])
      else if isDigitC c then
        consumeMods fuel rest tr { st with octave := digitVal c } out
      else if is_duration_specifier c then
        consumeMods fuel rest tr { st with duration := get_pmx_duration c } out
      else if is_duration_modifier c then
        consumeMods fuel rest
          { tr with duration_modifier := get_pmx_duration_modifier c } st out
      else if is_accidental c then
        consumeMods fuel rest { tr with accidental := get_pmx_accidental c } st out
      else
        (c :: rest, tr, st, out)

/-- One call of the PMX `write_note` on the persistent state `st`. -/
def write_note (song : List Char) (st : St) : StepRes × St × List Frag :=
  match song with
  | [] => (StepRes.endOfInput, st, [])
  | _ :: _ =>
    let m := consumeMods song.length song initTrans st []
    let tr := m.2.1
    let st1 := m.2.2.1
    let out := m.2.2.2
    match m.1 with
    | [] => (StepRes.error nulChar, st1, out)
    | c :: rest =>
      if c < 'A' ∨ 'G' < c then
        (StepRes.error c, st1, out)
      else
        let ev : NoteEvent :=
          ⟨tolowerC c, st1.duration, st1.octave, tr.duration_modifier,
           tr.accidental, st1.tie_status == 2, st1.tie_status == 1⟩
        let st2 :=
          if st1.tie_status > 0 then { st1 with tie_status := st1.tie_status - 1 }
          else st1
        (StepRes.ok rest, st2, out ++ [Frag.note ev])

/-- The driver loop of the PMX `main`, printing `"/\n"` at each newline. -/
def run : Nat → List Char → St → List Frag × St × Option Char
  | 0, _, st => ([], st, none)
  | fuel + 1, song, st =>
    match write_note song st with
    | (StepRes.endOfInput, st1, fr) => (fr, st1, none)
    | (StepRes.error c, st1, fr) => (fr, st1, some c)
    | (StepRes.ok rest, st1, fr) =>
      let nl : List Frag :=
        (rest.takeWhile (fun c => c = '\n')).map (fun _ => Frag.staffBreak)
      let r := run fuel (rest.dropWhile (fun c => c = '\n')) st1
      (fr ++ nl ++ r.1, r.2)

/-- The note events among a list of printed fragments, in print order. -/
def events (fr : List Frag) : List NoteEvent :=
  fr.filterMap (fun f => match f with | Frag.note e => some e | _ => none)

/-- Decode a raw input string as the PMX converter's `main` does. -/
def decode (s : String) : List Frag × St × Option Char :=
  run ((read_godsong s.toList).length + 1) (read_godsong s.toList) initSt

def decodeEvents (s : String) : List NoteEvent := events (decode s).1

def decodeSt (s : String) : St := (decode s).2.1

def decodeErr (s : String) : Option Char := (decode s).2.2

end PMX

namespace Gen

/-- Enum `EDurations`. -/
def DUR_4 : Nat := 0
def DUR_8_8 : Nat := 1
def DUR_3_3_3 : Nat := 2
def DUR_16_16_16_16 : Nat := 3
def DUR_8DOT_16 : Nat := 4
def DUR_8_16_16 : Nat := 5
def DUR_16_16_8 : Nat := 6

def god_simple_songs : List Nat := [DUR_4, DUR_4, DUR_4, DUR_4, DUR_8_8]
def god_normal_songs : List Nat := [DUR_4, DUR_4, DUR_8_8, DUR_3_3_3, DUR_16_16_16_16]
def god_complex_songs : List Nat :=
  [DUR_4, DUR_4, DUR_8_8, DUR_8_8, DUR_8DOT_16, DUR_3_3_3, DUR_8_16_16,
   DUR_16_16_8, DUR_16_16_16_16]

/-- `g_use_rests`: "Terry sets it to 'false'". -/
def g_use_rests : Bool := false

/-- `g_octave`: octave of the current note; `godsong` never writes it. -/
def g_octave : Nat := 4

/-- `octave2char`. -/
def octave2char (octave : Nat) : Char := Char.ofNat (octave + 48)

/-- The C `rand()` stream, modelled as an arbitrary sequence of non-negative
values plus the index of the next draw. -/
structure RS where
  vals : Nat → Nat
  idx : Nat

/-- `godbits(nbits)` is `rand() & mask` with the low `nbits` bits set in
`mask`; masking with an all-ones mask is reduction mod `2 ^ nbits`. -/
def godbits (nbits : Nat) (rs : RS) : Nat × RS :=
  (rs.vals rs.idx % 2 ^ nbits, ⟨rs.vals, rs.idx + 1⟩)

/-- `get_duration`; the `default` case of the C `switch` prints an error and
calls `abort` (the program only uses complexities 0, 1 and 2). -/
def get_duration (complexity random : Nat) : Nat :=
  match complexity with
  | 0 => god_simple_songs.getD (random % god_simple_songs.length) 0
  | 1 => god_normal_songs.getD (random % god_normal_songs.length) 0
  | 2 => god_complex_songs.getD (random % god_complex_songs.length) 0
  | _ + 3 => 0

/-- The state written by `insert_note`: the global `g_octave_old` and the
output buffer (with its position). -/
structure GenSt where
  octave_old : Nat
  buf : List Char
deriving DecidableEq, Repr

/-- `insert_note`. -/
def insert_note (st : GenSt) (random : Nat) : GenSt :=
  if random = 0 ∧ g_use_rests then
    { st with buf := st.buf ++ ['R'] }
  else
    let random := random / 2
    let st :=
      if random < 3 then
        if st.octave_old ≠ g_octave then
          { octave_old := g_octave, buf := st.buf ++ [octave2char g_octave] }
        else st
      else
        if st.octave_old ≠ g_octave + 1 then
          { octave_old := g_octave + 1,
            buf := st.buf ++ [octave2char (g_octave + 1)] }
        else st
    { st with
      buf := st.buf ++ [if random = 0 then 'G' else Char.ofNat (random - 1 + 65)] }

/-- The body of the `switch (duration)` in `godsong`'s loop.  Returns the
updated generator state, the advanced random stream, and the value the loop
stores into `last_duration` (some branches overwrite `duration` first). -/
def godsongStep (duration last_duration : Nat) (st : GenSt) (rs : RS) :
    GenSt × RS × Nat :=
  if duration = DUR_8_8 then
    let st := if last_duration ≠ DUR_8_8 then { st with buf := st.buf ++ ['e'] }
              else st
    let g1 := godbits 4 rs
    let st := insert_note st g1.1
    let g2 := godbits 4 g1.2
    let st := insert_note st g2.1
    (st, g2.2, DUR_8_8)
  else if duration = DUR_8DOT_16 then
    let st := { st with buf := st.buf ++ ['e', '.'] }
    let g1 := godbits 4 rs
    let st := insert_note st g1.1
    let st := { st with buf := st.buf ++ ['s'] }
    let g2 := godbits 4 g1.2
    let st := insert_note st g2.1
    (st, g2.2, DUR_16_16_16_16)
  else if duration = DUR_3_3_3 then
    let st := if last_duration ≠ DUR_3_3_3 then
                { st with buf := st.buf ++ ['e', 't'] }
              else st
    let g1 := godbits 4 rs
    let st := insert_note st g1.1
    let g2 := godbits 4 g1.2
    let st := insert_note st g2.1
    let g3 := godbits 4 g2.2
    let st := insert_note st g3.1
    (st, g3.2, DUR_3_3_3)
  else if duration = DUR_8_16_16 then
    let st := if last_duration ≠ DUR_8_8 then { st with buf := st.buf ++ ['e'] }
              else st
    let g1 := godbits 4 rs
    let st := insert_note st g1.1
    let st := { st with buf := st.buf ++ ['s'] }
    let g2 := godbits 4 g1.2
    let st := insert_note st g2.1
    let g3 := godbits 4 g2.2
    let st := insert_note st g3.1
    (st, g3.2, DUR_16_16_16_16)
  else if duration = DUR_16_16_8 then
    let st := if last_duration ≠ DUR_16_16_16_16 then
                { st with buf := st.buf ++ ['s'] }
              else st
    let g1 := godbits 4 rs
    let st := insert_note st g1.1
    let g2 := godbits 4 g1.2
    let st := insert_note st g2.1
    let st := { st with buf := st.buf ++ ['e'] }
    let g3 := godbits 4 g2.2
    let st := insert_note st g3.1
    (st, g3.2, DUR_8_8)
  else if duration = DUR_16_16_16_16 then
    let st := if last_duration ≠ DUR_16_16_16_16 then
                { st with buf := st.buf ++ ['s'] }
              else st
    let g1 := godbits 4 rs
    let g2 := godbits 4 g1.2
    let st := insert_note st g1.1
    let st := insert_note st g2.1
    let st := insert_note st g1.1
    let st := insert_note st g2.1
    (st, g2.2, DUR_16_16_16_16)
  else
    let st := if last_duration ≠ DUR_4 then { st with buf := st.buf ++ ['q'] }
              else st
    let g1 := godbits 4 rs
    let st := insert_note st g1.1
    (st, g1.2, duration)

/-- The `for (i = 0; i < len; i++)` loop of `godsong`. -/
def godsongLoop : Nat → Nat → Nat → GenSt → RS → GenSt
  | 0, _, _, st, _ => st
  | n + 1, complexity, last_duration, st, rs =>
    let g := godbits 8 rs
    let duration := get_duration complexity g.1
    let step := godsongStep duration last_duration st g.2
    godsongLoop n complexity step.2.2 step.1 step.2.1

/-- `godsong(len, complexity)`.  The `assert(len == 8 || len == 6)` becomes a
hypothesis of the theorems, the random seed an explicit stream, and the
initial `uint8_t last_duration = -1` is 255. -/
def godsong (len complexity : Nat) (rs : RS) : List Char :=
  let st0 : GenSt := ⟨g_octave + 1, [octave2char (g_octave + 1)]⟩
  let st1 := if len = 6 then { st0 with buf := st0.buf ++ ['M', '6', '/', '8'] }
             else st0
  (godsongLoop len complexity 255 st1 rs).buf

end Gen

/-! ### Safety of generated songs under the LilyPond decoder

The generator emits only characters that the converters' modifier loop or
pitch test accepts, and every note block ends with a pitch letter; from this
the decoder never reaches the invalid-note branch on a generated song.
-/

/-- Uppercase pitch letter, i.e. the characters passing the
`*song < 'A' || *song > 'G'` test of `write_note`. -/
def isPitch (c : Char) : Bool := decide ('A' ≤ c) && decide (c ≤ 'G')

/-- The characters the generator's note blocks draw from: the octave digits
it can emit (`g_octave_old` is always 4 or 5), its duration letters, the
triplet and dot markers, and the pitch letters. -/
def genBodyChars : List Char :=
  ['4', '5', 'q', 'e', 's', 't', '.', 'A', 'B', 'C', 'D', 'E', 'F', 'G']

/-- The decoder's accepted token alphabet as the specification lists it:
octave digits, meter characters, duration letters, triplet and dot markers,
and uppercase pitch letters. -/
def acceptedChars : List Char :=
  ['0', '1', '2', '3', '4', '5', '6', '7', '8', '9', 'M', '/',
   'w', 'h', 'q', 'e', 's', 't', '.', 'A', 'B', 'C', 'D', 'E', 'F', 'G']

/-- `b` extends `a` by characters of the generator body alphabet. -/
def goodExt (a b : List Char) : Prop :=
  ∃ t, b = a ++ t ∧ ∀ c ∈ t, c ∈ genBodyChars

/-- The list is nonempty and ends with an uppercase pitch letter. -/
def endsPitch (l : List Char) : Prop :=
  ∃ p, l.getLast? = some p ∧ isPitch p = true

theorem goodExt_refl (a : List Char) : goodExt a a := ⟨[], by simp⟩

theorem goodExt_trans {a b c : List Char} (h1 : goodExt a b) (h2 : goodExt b c) :
    goodExt a c := by
  obtain ⟨t1, rfl, m1⟩ := h1
  obtain ⟨t2, rfl, m2⟩ := h2
  refine ⟨t1 ++ t2, by simp, ?_⟩
  intro c hc
  rcases List.mem_append.mp hc with h | h
  · exact m1 c h
  · exact m2 c h

theorem goodExt_append (a t : List Char) (h : ∀ c ∈ t, c ∈ genBodyChars) :
    goodExt a (a ++ t) := ⟨t, rfl, h⟩

theorem goodExt_mem {a b : List Char} (h : goodExt a b) :
    ∀ c ∈ b, c ∈ a ∨ c ∈ genBodyChars := by
  obtain ⟨t, rfl, m⟩ := h
  intro c hc
  rcases List.mem_append.mp hc with h | h
  · exact Or.inl h
  · exact Or.inr (m c h)

theorem endsPitch_append {t : List Char} (a : List Char) (h : endsPitch t) :
    endsPitch (a ++ t) := by
  obtain ⟨p, hp, hpitch⟩ := h
  have ht : t ≠ [] := by rintro rfl; simp at hp
  exact ⟨p, by rwa [List.getLast?_append_of_ne_nil a ht], hpitch⟩

theorem endsPitch_suffix {a b : List Char} (h : endsPitch (a ++ b))
    (hb : b ≠ []) : endsPitch b := by
  obtain ⟨p, hp, hpitch⟩ := h
  rw [List.getLast?_append_of_ne_nil a hb] at hp
  exact ⟨p, hp, hpitch⟩

/-- `dropWhile` either empties the list or stops at a witness falsifying the
predicate. -/
theorem dropWhile_cases (p : Char → Bool) (l : List Char) :
    l.dropWhile p = [] ∨
      ∃ c r, l.dropWhile p = c :: r ∧ p c = false := by
  induction l with
  | nil => exact Or.inl rfl
  | cons c rest ih =>
    by_cases hc : p c = true
    · rw [List.dropWhile_cons_of_pos hc]
      exact ih
    · rw [List.dropWhile_cons_of_neg hc]
      exact Or.inr ⟨c, rest, rfl, by simpa using hc⟩

theorem endsPitch_snoc (l : List Char) (p : Char) (h : isPitch p = true) :
    endsPitch (l ++ [p]) := ⟨p, by simp, h⟩

theorem pitch_char_mem (k : Nat) (hk : k < 8) :
    (if k = 0 then 'G' else Char.ofNat (k - 1 + 65)) ∈ genBodyChars ∧
    isPitch (if k = 0 then 'G' else Char.ofNat (k - 1 + 65)) = true := by
  interval_cases k <;> exact ⟨by decide, by decide⟩

/-- `insert_note` on a 4-bit random value: it appends only generator-body
characters, keeps `g_octave_old` in `{4, 5}`, and its output ends with a
pitch letter. -/
theorem insert_note_spec (st : Gen.GenSt) (r : Nat)
    (hoct : st.octave_old = 4 ∨ st.octave_old = 5) (hr : r < 16) :
    goodExt st.buf (Gen.insert_note st r).buf ∧
    ((Gen.insert_note st r).octave_old = 4 ∨
      (Gen.insert_note st r).octave_old = 5) ∧
    endsPitch (Gen.insert_note st r).buf := by
  have hk : r / 2 < 8 := by omega
  obtain ⟨hmem, hpitch⟩ := pitch_char_mem (r / 2) hk
  have hrest : ¬(r = 0 ∧ Gen.g_use_rests = true) := by simp [Gen.g_use_rests]
  have h4 : Gen.octave2char Gen.g_octave = '4' := by decide
  have h5 : Gen.octave2char (Gen.g_octave + 1) = '5' := by decide
  have h4mem : Gen.octave2char Gen.g_octave ∈ genBodyChars := by decide
  have h5mem : Gen.octave2char (Gen.g_octave + 1) ∈ genBodyChars := by decide
  unfold Gen.insert_note
  rw [if_neg hrest]
  simp only []
  by_cases h3 : r / 2 < 3
  · rw [if_pos h3]
    by_cases ho : st.octave_old ≠ Gen.g_octave
    · rw [if_pos ho]
      refine ⟨?_, Or.inl rfl, endsPitch_snoc _ _ hpitch⟩
      exact goodExt_trans
        (goodExt_append _ [Gen.octave2char Gen.g_octave]
          (by intro c hc; simp at hc; subst hc; exact h4mem))
        (goodExt_append _ [_] (by intro c hc; simp at hc; subst hc; exact hmem))
    · rw [if_neg ho]
      exact ⟨goodExt_append _ [_]
          (by intro c hc; simp at hc; subst hc; exact hmem),
        hoct, endsPitch_snoc _ _ hpitch⟩
  · rw [if_neg h3]
    by_cases ho : st.octave_old ≠ Gen.g_octave + 1
    · rw [if_pos ho]
      refine ⟨?_, Or.inr rfl, endsPitch_snoc _ _ hpitch⟩
      exact goodExt_trans
        (goodExt_append _ [Gen.octave2char (Gen.g_octave + 1)]
          (by intro c hc; simp at hc; subst hc; exact h5mem))
        (goodExt_append _ [_] (by intro c hc; simp at hc; subst hc; exact hmem))
    · rw [if_neg ho]
      exact ⟨goodExt_append _ [_]
          (by intro c hc; simp at hc; subst hc; exact hmem),
        hoct, endsPitch_snoc _ _ hpitch⟩

theorem godbits_lt (nbits : Nat) (rs : Gen.RS) :
    (Gen.godbits nbits rs).1 < 2 ^ nbits :=
  Nat.mod_lt _ (by positivity)

/-- Invariant threaded through the generator proofs: the buffer extends `a`
by body characters and `g_octave_old` stays in `{4, 5}`. -/
def genInv (a : List Char) (st : Gen.GenSt) : Prop :=
  goodExt a st.buf ∧ (st.octave_old = 4 ∨ st.octave_old = 5)

theorem genInv_append (a : List Char) (st : Gen.GenSt) (cs : List Char)
    (h : genInv a st) (hcs : ∀ c ∈ cs, c ∈ genBodyChars) :
    genInv a { st with buf := st.buf ++ cs } :=
  ⟨goodExt_trans h.1 (goodExt_append _ cs hcs), h.2⟩

theorem genInv_ite_append (a : List Char) (st : Gen.GenSt) (cs : List Char)
    (b : Prop) [Decidable b] (h : genInv a st)
    (hcs : ∀ c ∈ cs, c ∈ genBodyChars) :
    genInv a (if b then { st with buf := st.buf ++ cs } else st) := by
  split
  · exact genInv_append a st cs h hcs
  · exact h

theorem genInv_insert (a : List Char) (st : Gen.GenSt) (r : Nat)
    (h : genInv a st) (hr : r < 16) :
    genInv a (Gen.insert_note st r) ∧ endsPitch (Gen.insert_note st r).buf := by
  obtain ⟨h1, h2, h3⟩ := insert_note_spec st r h.2 hr
  exact ⟨⟨goodExt_trans h.1 h1, h2⟩, h3⟩

/-- Every branch of the generator's `switch` appends only body characters,
preserves the octave invariant, and leaves the buffer ending with a pitch
letter (each branch ends with `insert_note`). -/
theorem godsongStep_spec (a : List Char) (duration last_duration : Nat)
    (st : Gen.GenSt) (rs : Gen.RS) (h : genInv a st) :
    genInv a (Gen.godsongStep duration last_duration st rs).1 ∧
      endsPitch (Gen.godsongStep duration last_duration st rs).1.buf := by
  have h16 : ∀ rs1 : Gen.RS, (Gen.godbits 4 rs1).1 < 16 :=
    fun rs1 => godbits_lt 4 rs1
  unfold Gen.godsongStep
  by_cases hd1 : duration = Gen.DUR_8_8
  · rw [if_pos hd1]
    have s1 := genInv_ite_append a st ['e'] (last_duration ≠ Gen.DUR_8_8) h
      (by decide)
    have s2 := genInv_insert a _ (Gen.godbits 4 rs).1 s1 (h16 rs)
    have s3 := genInv_insert a _ (Gen.godbits 4 (Gen.godbits 4 rs).2).1 s2.1
      (h16 _)
    exact ⟨s3.1, s3.2⟩
  · rw [if_neg hd1]
    by_cases hd2 : duration = Gen.DUR_8DOT_16
    · rw [if_pos hd2]
      have s1 := genInv_append a st ['e', '.'] h (by decide)
      have s2 := genInv_insert a _ (Gen.godbits 4 rs).1 s1 (h16 rs)
      have s3 := genInv_append a _ ['s'] s2.1 (by decide)
      have s4 := genInv_insert a _ (Gen.godbits 4 (Gen.godbits 4 rs).2).1 s3
        (h16 _)
      exact ⟨s4.1, s4.2⟩
    · rw [if_neg hd2]
      by_cases hd3 : duration = Gen.DUR_3_3_3
      · rw [if_pos hd3]
        have s1 := genInv_ite_append a st ['e', 't']
          (last_duration ≠ Gen.DUR_3_3_3) h (by decide)
        have s2 := genInv_insert a _ (Gen.godbits 4 rs).1 s1 (h16 rs)
        have s3 := genInv_insert a _ (Gen.godbits 4 (Gen.godbits 4 rs).2).1 s2.1
          (h16 _)
        have s4 := genInv_insert a _
          (Gen.godbits 4 (Gen.godbits 4 (Gen.godbits 4 rs).2).2).1 s3.1 (h16 _)
        exact ⟨s4.1, s4.2⟩
      · rw [if_neg hd3]
        by_cases hd4 : duration = Gen.DUR_8_16_16
        · rw [if_pos hd4]
          have s1 := genInv_ite_append a st ['e']
            (last_duration ≠ Gen.DUR_8_8) h (by decide)
          have s2 := genInv_insert a _ (Gen.godbits 4 rs).1 s1 (h16 rs)
          have s3 := genInv_append a _ ['s'] s2.1 (by decide)
          have s4 := genInv_insert a _ (Gen.godbits 4 (Gen.godbits 4 rs).2).1 s3
            (h16 _)
          have s5 := genInv_insert a _
            (Gen.godbits 4 (Gen.godbits 4 (Gen.godbits 4 rs).2).2).1 s4.1 (h16 _)
          exact ⟨s5.1, s5.2⟩
        · rw [if_neg hd4]
          by_cases hd5 : duration = Gen.DUR_16_16_8
          · rw [if_pos hd5]
            have s1 := genInv_ite_append a st ['s']
              (last_duration ≠ Gen.DUR_16_16_16_16) h (by decide)
            have s2 := genInv_insert a _ (Gen.godbits 4 rs).1 s1 (h16 rs)
            have s3 := genInv_insert a _ (Gen.godbits 4 (Gen.godbits 4 rs).2).1
              s2.1 (h16 _)
            have s4 := genInv_append a _ ['e'] s3.1 (by decide)
            have s5 := genInv_insert a _
              (Gen.godbits 4 (Gen.godbits 4 (Gen.godbits 4 rs).2).2).1 s4 (h16 _)
            exact ⟨s5.1, s5.2⟩
          · rw [if_neg hd5]
            by_cases hd6 : duration = Gen.DUR_16_16_16_16
            · rw [if_pos hd6]
              have s1 := genInv_ite_append a st ['s']
                (last_duration ≠ Gen.DUR_16_16_16_16) h (by decide)
              have s2 := genInv_insert a _ (Gen.godbits 4 rs).1 s1 (h16 rs)
              have s3 := genInv_insert a _
                (Gen.godbits 4 (Gen.godbits 4 rs).2).1 s2.1 (h16 _)
              have s4 := genInv_insert a _ (Gen.godbits 4 rs).1 s3.1 (h16 rs)
              have s5 := genInv_insert a _
                (Gen.godbits 4 (Gen.godbits 4 rs).2).1 s4.1 (h16 _)
              exact ⟨s5.1, s5.2⟩
            · rw [if_neg hd6]
              have s1 := genInv_ite_append a st ['q']
                (last_duration ≠ Gen.DUR_4) h (by decide)
              have s2 := genInv_insert a _ (Gen.godbits 4 rs).1 s1 (h16 rs)
              exact ⟨s2.1, s2.2⟩

theorem getLast?_mem_self {l : List Char} {p : Char} (h : l.getLast? = some p) :
    p ∈ l := by
  obtain ⟨hne, rfl⟩ := List.mem_getLast?_eq_getLast (l := l) (x := p) h
  exact List.getLast_mem hne

/--
On an input drawn from the generator body alphabet, the LilyPond modifier
loop consumes exactly the characters up to the first pitch letter (no meter
branch fires, so no fragment is printed), leaving the cursor at that pitch.
-/
theorem consumeMods_genBody (fuel : Nat) (s : List Char) (tr : LP.Trans)
    (st : LP.St) (out : List LP.Frag) (hfuel : s.length ≤ fuel)
    (hchars : ∀ c ∈ s, c ∈ genBodyChars) :
    ∃ tr1 st1, LP.consumeMods fuel s tr st out =
      (s.dropWhile (fun c => !isPitch c), tr1, st1, out) := by
  induction fuel generalizing s tr st out with
  | zero =>
    have hs : s = [] := List.length_eq_zero.mp (Nat.le_zero.mp hfuel)
    subst hs
    exact ⟨tr, st, by simp [LP.consumeMods]⟩
  | succ fuel ih =>
    rcases s with _ | ⟨c, rest⟩
    · exact ⟨tr, st, by simp [LP.consumeMods]⟩
    · have hc := hchars c (List.mem_cons_self c rest)
      have hrest : ∀ x ∈ rest, x ∈ genBodyChars := fun x hx =>
        hchars x (List.mem_cons_of_mem c hx)
      have hfuel2 : rest.length ≤ fuel := by
        simp only [List.length_cons] at hfuel
        omega
      simp only [genBodyChars] at hc
      fin_cases hc <;>
        first
          | (obtain ⟨tr1, st1, heq⟩ := ih rest _ _ out hfuel2 hrest
             exact ⟨tr1, st1, by
               rw [List.dropWhile_cons_of_pos (by decide)]
               exact heq⟩)
          | (exact ⟨tr, st, by
               rw [List.dropWhile_cons_of_neg (by decide)]
               rfl⟩)

theorem genBody_no_newline : ∀ x ∈ genBodyChars, ¬x = '\n' := by decide

theorem genBody_accepted : ∀ x ∈ genBodyChars, x ∈ acceptedChars := by decide

/--
On a nonempty generator-body input that ends with a pitch letter, one
LilyPond `write_note` call succeeds: it consumes the modifiers before the
first pitch letter and that pitch, and returns the `ok` cursor.
-/
theorem write_note_genBody (s : List Char) (st : LP.St)
    (hne : s ≠ []) (hchars : ∀ c ∈ s, c ∈ genBodyChars) (hend : endsPitch s) :
    ∃ c r st2 fr, LP.write_note s st = (StepRes.ok r, st2, fr) ∧
      s.dropWhile (fun c => !isPitch c) = c :: r := by
  rcases s with _ | ⟨c0, s0⟩
  · exact absurd rfl hne
  obtain ⟨tr1, st1, heq⟩ := consumeMods_genBody (c0 :: s0).length (c0 :: s0)
    LP.initTrans st [] le_rfl hchars
  rcases dropWhile_cases (fun c => !isPitch c) (c0 :: s0) with hnil | ⟨c, r, hd, hcp⟩
  · exfalso
    obtain ⟨p, hp, hpitch⟩ := hend
    have hmem : p ∈ c0 :: s0 := getLast?_mem_self hp
    have := (List.dropWhile_eq_nil_iff.mp hnil) p hmem
    simp [hpitch] at this
  · have hcpitch : isPitch c = true := by simpa using hcp
    have hrange : ¬(c < 'A' ∨ 'G' < c) := by
      simp only [isPitch, Bool.and_eq_true, decide_eq_true_eq] at hcpitch
      push_neg
      exact ⟨hcpitch.1, hcpitch.2⟩
    refine ⟨c, r, (LP.write_note (c0 :: s0) st).2.1,
      (LP.write_note (c0 :: s0) st).2.2, ?_, hd⟩
    have h1 : (LP.write_note (c0 :: s0) st).1 = StepRes.ok r := by
      simp only [LP.write_note]
      rw [heq, hd]
      simp only []
      rw [if_neg hrange]
    exact Prod.ext h1 rfl

/--
The LilyPond driver loop never reports an invalid note on a generator-body
string that is empty or ends with a pitch letter (with fuel exceeding the
input length, as `main`/`runList` always provide).
-/
theorem run_no_error (fuel : Nat) (s : List Char) (st : LP.St)
    (hfuel : s.length < fuel) (hchars : ∀ c ∈ s, c ∈ genBodyChars)
    (hend : s = [] ∨ endsPitch s) :
    (LP.run fuel s st).2.2 = none := by
  induction fuel generalizing s st with
  | zero => omega
  | succ fuel ih =>
    rcases hend with rfl | hend
    · simp [LP.run, LP.write_note]
    · have hne : s ≠ [] := by
        obtain ⟨p, hp, _⟩ := hend
        rintro rfl
        simp at hp
      obtain ⟨c, r, st2, fr, hwn, hd⟩ := write_note_genBody s st hne hchars hend
      have hsuf : (c :: r) <:+ s := hd ▸ List.dropWhile_suffix _
      have hsubset : ∀ x ∈ c :: r, x ∈ s := fun x hx => hsuf.sublist.subset hx
      have hrchars : ∀ x ∈ r, x ∈ genBodyChars := fun x hx =>
        hchars x (hsubset x (List.mem_cons_of_mem c hx))
      have hrlen : r.length < s.length := by
        have := hsuf.length_le
        simp only [List.length_cons] at this
        omega
      have hnonl : List.dropWhile (fun c => c = '\n') r = r := by
        cases r with
        | nil => rfl
        | cons x xs =>
          rw [List.dropWhile_cons_of_neg]
          simpa using genBody_no_newline x (hrchars x (List.mem_cons_self x xs))
      have hendr : r = [] ∨ endsPitch r := by
        rcases eq_or_ne r [] with hr | hr
        · exact Or.inl hr
        · right
          have hsplit : s = ((s.takeWhile (fun c => !isPitch c)) ++ [c]) ++ r := by
            conv_lhs => rw [← List.takeWhile_append_dropWhile
              (p := fun c => !isPitch c) (l := s)]
            rw [hd]
            simp
          rw [hsplit] at hend
          exact endsPitch_suffix hend hr
      rw [LP.run]
      rw [hwn]
      simp only []
      rw [hnonl]
      exact ih r st2 (by omega) hrchars hendr

/-- The generator's main loop preserves the buffer invariant, and after at
least one iteration the buffer ends with a pitch letter. -/
theorem godsongLoop_spec (n : Nat) (a : List Char) (complexity : Nat)
    (last_duration : Nat) (st : Gen.GenSt) (rs : Gen.RS) (h : genInv a st) :
    genInv a (Gen.godsongLoop n complexity last_duration st rs) ∧
      (1 ≤ n →
        endsPitch (Gen.godsongLoop n complexity last_duration st rs).buf) := by
  induction n generalizing last_duration st rs with
  | zero => exact ⟨h, by omega⟩
  | succ n ih =>
    have hstep := godsongStep_spec a
      (Gen.get_duration complexity (Gen.godbits 8 rs).1) last_duration st
      (Gen.godbits 8 rs).2 h
    set stp := Gen.godsongStep (Gen.get_duration complexity (Gen.godbits 8 rs).1)
      last_duration st (Gen.godbits 8 rs).2 with hstp
    have hrec := ih stp.2.2 stp.1 stp.2.1 hstep.1
    refine ⟨hrec.1, fun _ => ?_⟩
    rcases Nat.eq_zero_or_pos n with hn | hn
    · subst hn
      exact hstep.2
    · exact hrec.2 hn

/-- Shape of a generated song: the initial octave digit `'5'`, the `"M6/8"`
meter header exactly when `len = 6`, then a nonempty body over the generator
alphabet ending with a pitch letter. -/
theorem godsong_shape (len complexity : Nat) (rs : Gen.RS)
    (hlen : len = 8 ∨ len = 6) :
    ∃ t, (Gen.godsong len complexity rs = '5' :: t ∧ len = 8 ∨
          Gen.godsong len complexity rs = '5' :: 'M' :: '6' :: '/' :: '8' :: t ∧
            len = 6) ∧
         (∀ c ∈ t, c ∈ genBodyChars) ∧ endsPitch t := by
  have h5 : Gen.octave2char (Gen.g_octave + 1) = '5' := by decide
  rcases hlen with h8 | h6
  · subst h8
    have hinv : genInv ['5'] (⟨Gen.g_octave + 1, [Gen.octave2char (Gen.g_octave + 1)]⟩ : Gen.GenSt) := by
      rw [h5]
      exact ⟨goodExt_refl _, Or.inr rfl⟩
    have hloop := godsongLoop_spec 8 ['5'] complexity 255
      ⟨Gen.g_octave + 1, [Gen.octave2char (Gen.g_octave + 1)]⟩ rs hinv
    obtain ⟨⟨t, hbuf, hmem⟩, -⟩ := hloop.1
    have hend := hloop.2 (by norm_num)
    have hgs : Gen.godsong 8 complexity rs =
        (Gen.godsongLoop 8 complexity 255
          ⟨Gen.g_octave + 1, [Gen.octave2char (Gen.g_octave + 1)]⟩ rs).buf := by
      unfold Gen.godsong
      norm_num
    refine ⟨t, Or.inl ⟨?_, rfl⟩, hmem, ?_⟩
    · rw [hgs, hbuf]
      simp
    · rw [hbuf] at hend
      have ht : t ≠ [] := by
        rintro rfl
        rw [List.append_nil] at hend
        obtain ⟨p, hp, hpitch⟩ := hend
        have hps : (some '5' : Option Char) = some p := hp
        injection hps with hp5
        subst hp5
        exact absurd hpitch (by decide)
      exact endsPitch_suffix hend ht
  · subst h6
    have hinv : genInv ['5', 'M', '6', '/', '8']
        (⟨Gen.g_octave + 1,
          [Gen.octave2char (Gen.g_octave + 1)] ++ ['M', '6', '/', '8']⟩ : Gen.GenSt) := by
      rw [h5]
      exact ⟨goodExt_refl _, Or.inr rfl⟩
    have hloop := godsongLoop_spec 6 ['5', 'M', '6', '/', '8'] complexity 255
      ⟨Gen.g_octave + 1, [Gen.octave2char (Gen.g_octave + 1)] ++ ['M', '6', '/', '8']⟩
      rs hinv
    obtain ⟨⟨t, hbuf, hmem⟩, -⟩ := hloop.1
    have hend := hloop.2 (by norm_num)
    have hgs : Gen.godsong 6 complexity rs =
        (Gen.godsongLoop 6 complexity 255
          ⟨Gen.g_octave + 1,
            [Gen.octave2char (Gen.g_octave + 1)] ++ ['M', '6', '/', '8']⟩ rs).buf := by
      unfold Gen.godsong
      norm_num
    refine ⟨t, Or.inr ⟨?_, rfl⟩, hmem, ?_⟩
    · rw [hgs, hbuf]
      simp
    · rw [hbuf] at hend
      have ht : t ≠ [] := by
        rintro rfl
        rw [List.append_nil] at hend
        obtain ⟨p, hp, hpitch⟩ := hend
        have hps : (some '8' : Option Char) = some p := hp
        injection hps with hp8
        subst hp8
        exact absurd hpitch (by decide)
      exact endsPitch_suffix hend ht

/-- As `run_no_error`, but for a generated 6/8 song: the initial octave digit
and the `"M6/8"` meter header are consumed by the first `write_note` call
before the body is processed. -/
theorem run_no_error_header (fuel : Nat) (t : List Char) (st : LP.St)
    (hfuel : t.length + 5 < fuel) (hchars : ∀ c ∈ t, c ∈ genBodyChars)
    (hend : endsPitch t) :
    (LP.run fuel ('5' :: 'M' :: '6' :: '/' :: '8' :: t) st).2.2 = none := by
  rcases fuel with _ | f
  · omega
  obtain ⟨tr1, st1, heq⟩ := consumeMods_genBody (t.length + 3) t LP.initTrans
    { st with octave := digitVal '5', meter_top := digitVal '6',
              meter_bottom := digitVal '8' }
    [LP.Frag.meter (digitVal '6') (digitVal '8')] (by omega) hchars
  have hstep : LP.consumeMods ('5' :: 'M' :: '6' :: '/' :: '8' :: t).length
      ('5' :: 'M' :: '6' :: '/' :: '8' :: t) LP.initTrans st []
      = LP.consumeMods (t.length + 3) t LP.initTrans
        { st with octave := digitVal '5', meter_top := digitVal '6',
                  meter_bottom := digitVal '8' }
        [LP.Frag.meter (digitVal '6') (digitVal '8')] := rfl
  rw [heq] at hstep
  rcases dropWhile_cases (fun c => !isPitch c) t with hnil | ⟨c, r, hd, hcp⟩
  · exfalso
    obtain ⟨p, hp, hpitch⟩ := hend
    have hmem : p ∈ t := getLast?_mem_self hp
    have := (List.dropWhile_eq_nil_iff.mp hnil) p hmem
    simp [hpitch] at this
  · have hcpitch : isPitch c = true := by simpa using hcp
    have hrange : ¬(c < 'A' ∨ 'G' < c) := by
      simp only [isPitch, Bool.and_eq_true, decide_eq_true_eq] at hcpitch
      push_neg
      exact ⟨hcpitch.1, hcpitch.2⟩
    have h1 : (LP.write_note ('5' :: 'M' :: '6' :: '/' :: '8' :: t) st).1 =
        StepRes.ok r := by
      simp only [LP.write_note]
      rw [hstep, hd]
      simp only []
      rw [if_neg hrange]
    have hwn : LP.write_note ('5' :: 'M' :: '6' :: '/' :: '8' :: t) st =
        (StepRes.ok r,
         (LP.write_note ('5' :: 'M' :: '6' :: '/' :: '8' :: t) st).2.1,
         (LP.write_note ('5' :: 'M' :: '6' :: '/' :: '8' :: t) st).2.2) :=
      Prod.ext h1 rfl
    have hsuf : (c :: r) <:+ t := hd ▸ List.dropWhile_suffix _
    have hsubset : ∀ x ∈ c :: r, x ∈ t := fun x hx => hsuf.sublist.subset hx
    have hrchars : ∀ x ∈ r, x ∈ genBodyChars := fun x hx =>
      hchars x (hsubset x (List.mem_cons_of_mem c hx))
    have hrlen : r.length < t.length := by
      have := hsuf.length_le
      simp only [List.length_cons] at this
      omega
    have hnonl : List.dropWhile (fun c => c = '\n') r = r := by
      cases r with
      | nil => rfl
      | cons x xs =>
        rw [List.dropWhile_cons_of_neg]
        simpa using genBody_no_newline x (hrchars x (List.mem_cons_self x xs))
    have hendr : r = [] ∨ endsPitch r := by
      rcases eq_or_ne r [] with hr | hr
      · exact Or.inl hr
      · right
        have hsplit : t = ((t.takeWhile (fun c => !isPitch c)) ++ [c]) ++ r := by
          conv_lhs => rw [← List.takeWhile_append_dropWhile
            (p := fun c => !isPitch c) (l := t)]
          rw [hd]
          simp
        rw [hsplit] at hend
        exact endsPitch_suffix hend hr
    rw [LP.run]
    rw [hwn]
    simp only []
    rw [hnonl]
    exact run_no_error f r _ (by omega) hrchars hendr

/-- C10: because the generator's rest flag `g_use_rests` is false, every
string returned by `godsong` (for `len ∈ {8, 6}` and any complexity 0, 1 or
2, over any random stream) contains only characters of the decoder's
accepted token set — octave digits, `'M'`, `'/'`, the duration letters,
`'t'`, `'.'`, and uppercase pitch letters — and never the rest marker `'R'`;
consequently decoding a generated string with the LilyPond converter never
reaches the invalid-note (`UnrecognizedToken`) branch. -/
theorem c10_generated_songs_decode_safely (len complexity : Nat) (rs : Gen.RS)
    (hlen : len = 8 ∨ len = 6) (_hcx : complexity < 3) :
    (∀ c ∈ Gen.godsong len complexity rs, c ∈ acceptedChars ∧ c ≠ 'R') ∧
    (LP.runList (Gen.godsong len complexity rs)).2.2 = none := by
  obtain ⟨t, hshape, hmem, hend⟩ := godsong_shape len complexity rs hlen
  have hnoR : ∀ c ∈ acceptedChars, c ≠ 'R' := by decide
  rcases hshape with ⟨hg, -⟩ | ⟨hg, -⟩
  · constructor
    · rw [hg]
      intro c hc
      rcases List.mem_cons.mp hc with rfl | hc
      · exact ⟨by decide, by decide⟩
      · have hacc := genBody_accepted c (hmem c hc)
        exact ⟨hacc, hnoR c hacc⟩
    · rw [hg]
      unfold LP.runList
      apply run_no_error
      · omega
      · intro c hc
        rcases List.mem_cons.mp hc with rfl | hc
        · decide
        · exact hmem c hc
      · exact Or.inr (endsPitch_append ['5'] hend)
  · constructor
    · rw [hg]
      intro c hc
      simp only [List.mem_cons] at hc
      rcases hc with rfl | rfl | rfl | rfl | rfl | hc
      · exact ⟨by decide, by decide⟩
      · exact ⟨by decide, by decide⟩
      · exact ⟨by decide, by decide⟩
      · exact ⟨by decide, by decide⟩
      · exact ⟨by decide, by decide⟩
      · have hacc := genBody_accepted c (hmem c hc)
        exact ⟨hacc, hnoR c hacc⟩
    · rw [hg]
      unfold LP.runList
      apply run_no_error_header
      · simp only [List.length_cons]
        omega
      · exact hmem
      · exact hend

/-- Witness for C10: the all-zero random stream at `len = 8`,
`complexity = 0` (the generated song is `"5q4GGGGGGGG"`). -/
theorem c10_generated_songs_decode_safely_witness :
    ((8 : Nat) = 8 ∨ (8 : Nat) = 6) ∧ (0 : Nat) < 3 ∧
    ((∀ c ∈ Gen.godsong 8 0 ⟨fun _ => 0, 0⟩, c ∈ acceptedChars ∧ c ≠ 'R') ∧
     (LP.runList (Gen.godsong 8 0 ⟨fun _ => 0, 0⟩)).2.2 = none) :=
  ⟨Or.inl rfl, by decide,
   c10_generated_songs_decode_safely 8 0 ⟨fun _ => 0, 0⟩ (Or.inl rfl) (by decide)⟩

/-! ### The specification claims -/

/-- C1: decoding `"tCDE"` from the initial decoder state yields exactly 3
note events tagged as triplet members 1, 2, 3 in that order; after the third
event the triplet counter is back to 0 and the group closed; and a 4th note
decoded afterwards (`"tCDEF"`) carries no triplet membership. -/
theorem c1_triplet_grouping :
    (LP.decodeEvents "tCDE").map LP.NoteEvent.tripletPos = [1, 2, 3] ∧
    (LP.decodeSt "tCDE").notes_in_triplet = 0 ∧
    (LP.decodeSt "tCDE").in_triplet = false ∧
    (LP.decodeEvents "tCDEF").map LP.NoteEvent.tripletPos = [1, 2, 3, 0] := by
  decide

/-- C2 as stated is false: the initial persisted duration is the empty
string (no duration class), not Quarter — a first note decoded from program
start is emitted with an empty duration field, where a quarter note would
carry the quarter token (as `"qC"` shows). -/
theorem c2_counterexample :
    LP.initSt.duration ≠ LP.get_lilypond_duration 'q' ∧
    PMX.initSt.duration ≠ PMX.get_pmx_duration 'q' ∧
    (LP.decodeEvents "C").map LP.NoteEvent.duration = [""] ∧
    (LP.decodeEvents "qC").map LP.NoteEvent.duration = ["4"] := by decide

/-- C2 (amended): before the first note the decoder state is octave 4, meter
4/4, no tie pending, triplet position 0, and an *unset* (empty-string)
duration base; a first note with no preceding octave or duration token is
emitted with octave 4 and an empty duration field rather than the quarter
class. -/
theorem c2_initial_state :
    LP.initSt = ⟨false, 0, "", 4, 4, 4⟩ ∧
    PMX.initSt = ⟨0, "", 4, 4, 4⟩ ∧
    LP.decodeEvents "C" = [⟨'c', "", 4, "", "", "", 0⟩] ∧
    PMX.decodeEvents "C" = [⟨'c', "", 4, "", "", false, false⟩] := by decide

/-- C3 as stated is false: a duration letter consumed while a triplet group
is in progress does not reset the triplet state — in `"tCeDE"` the letter
`'e'` arrives at triplet position 1, yet the two notes after it are still
tagged as triplet members 2 and 3 (with the new eighth duration). -/
theorem c3_counterexample :
    (LP.decodeEvents "tCeDE").map LP.NoteEvent.tripletPos = [1, 2, 3] ∧
    (LP.decodeEvents "tCeDE").map LP.NoteEvent.duration = ["", "8", "8"] := by
  decide

/-- C3 (amended): consuming a duration letter sets the persisted duration
base to the corresponding class and changes nothing else in the persisted
state — in particular the carried triplet position is untouched, so an
in-progress triplet continues through the letter and the following notes
complete the group. -/
theorem c3_duration_letter_keeps_triplet :
    (∀ d ∈ (['w', 'h', 'q', 'e', 's'] : List Char),
      ∀ (fuel : Nat) (d2 : List Char) (tr : LP.Trans) (st : LP.St)
        (out : List LP.Frag),
        LP.consumeMods (fuel + 1) (d :: d2) tr st out =
          LP.consumeMods fuel d2 tr
            { st with duration := LP.get_lilypond_duration d } out) ∧
    (LP.decodeEvents "tCeDE").map
      (fun e => (e.tripletPos, e.duration)) = [(1, ""), (2, "8"), (3, "8")] := by
  constructor
  · intro d hd fuel d2 tr st out
    fin_cases hd <;> rfl
  · decide

/-- C4 as stated is false: pitch letters are not accepted case-insensitively
— the lowercase `'c'` at the pitch position is rejected as an invalid note
(the decoder halts with the offending character), while `'C'` decodes to a
note event. -/
theorem c4_counterexample :
    LP.decodeErr "c" = some 'c' ∧
    LP.decodeEvents "c" = [] ∧
    LP.decodeEvents "C" = [⟨'c', "", 4, "", "", "", 0⟩] ∧
    PMX.decodeErr "c" = some 'c' ∧
    PMX.decodeEvents "c" = [] := by decide

/-- C4 (amended): pitch letters are accepted only in uppercase (`'A'`–`'G'`)
at the pitch position, and the emitted pitch is lowercase; the corresponding
lowercase letter never decodes to a note event (`'b'`, `'e'`, `'s'` are
consumed as modifiers and the rest are rejected as invalid notes). -/
theorem c4_pitch_uppercase_only :
    ∀ c ∈ (['A', 'B', 'C', 'D', 'E', 'F', 'G'] : List Char),
      (LP.runList [c]).1 = [LP.Frag.note ⟨tolowerC c, "", 4, "", "", "", 0⟩] ∧
      ('a' ≤ tolowerC c ∧ tolowerC c ≤ 'g') ∧
      LP.events (LP.runList [tolowerC c]).1 = [] := by decide

/-- Witness for the amended C4 theorem at the pitch letter `'C'`. -/
theorem c4_pitch_uppercase_only_witness :
    'C' ∈ (['A', 'B', 'C', 'D', 'E', 'F', 'G'] : List Char) ∧
    ((LP.runList ['C']).1 = [LP.Frag.note ⟨tolowerC 'C', "", 4, "", "", "", 0⟩] ∧
     ('a' ≤ tolowerC 'C' ∧ tolowerC 'C' ≤ 'g') ∧
     LP.events (LP.runList [tolowerC 'C']).1 = []) :=
  ⟨by decide, c4_pitch_uppercase_only 'C' (by decide)⟩

/-- C5: a tie marker attaches to exactly the next two produced notes and
then expires — for `"(C D E"` from the initial state the PMX converter marks
the first event tie-open, the second tie-close only, and the third neither;
in the LilyPond converter (whose tie is a one-note suffix `"~"`) only the
first event carries the tie token. -/
theorem c5_tie_scope :
    (PMX.decodeEvents "(C D E").map (fun e => (e.tieOpen, e.tieClose)) =
      [(true, false), (false, true), (false, false)] ∧
    (LP.decodeEvents "(C D E").map LP.NoteEvent.tie = ["~", "", ""] := by decide

/-- C6: a partial meter token updates only the fields whose digits are
present — from the default 4/4 state, consuming `"M3"` (no slash, no
denominator) sets the meter top to 3 and leaves the bottom at 4, in both
converters, and the emitted meter-change fragment reads 3/4. -/
theorem c6_meter_partial_update :
    (LP.decodeSt "M3").meter_top = 3 ∧ (LP.decodeSt "M3").meter_bottom = 4 ∧
    (PMX.decodeSt "M3").meter_top = 3 ∧ (PMX.decodeSt "M3").meter_bottom = 4 ∧
    LP.Frag.meter 3 4 ∈ (LP.decode "M3").1 ∧
    PMX.Frag.meter 3 4 ∈ (PMX.decode "M3").1 := by decide

/-- C7: octave and duration base are unchanged by notes that carry no
octave digit or duration letter (`"C D"` yields two events with identical
octave and duration), and octave, duration and meter persist across a line
break: in `"M3/8 2sC\nD"`, the note after the staff break still has octave 2
and sixteenth duration, and the 3/8 meter is still in force. -/
theorem c7_state_persists :
    (LP.decodeEvents "C D").map (fun e => (e.octave, e.duration)) =
      [(4, ""), (4, "")] ∧
    (LP.decodeEvents "M3/8 2sC\nD").map (fun e => (e.octave, e.duration)) =
      [(2, "16"), (2, "16")] ∧
    (LP.decodeSt "M3/8 2sC\nD").meter_top = 3 ∧
    (LP.decodeSt "M3/8 2sC\nD").meter_bottom = 8 := by decide

/-- C8: an unrecognized character at the pitch position (`'Z'` in `"q9Z"`)
makes `write_note` return the invalid-note error carrying that character and
halts decoding of the line; events produced before the error are retained
(`"Cq9Z"` keeps its first note), and the persisted state is exactly the one
produced by the legitimately consumed tokens — duration quarter from `'q'`,
octave 9 from `'9'`, meter and triplet state untouched — so it is not
corrupted for any caller that would resume on a later staff. -/
theorem c8_unrecognized_token :
    LP.decodeErr "q9Z" = some 'Z' ∧
    LP.decodeErr "Cq9Z" = some 'Z' ∧
    LP.decodeEvents "Cq9Z" = [⟨'c', "", 4, "", "", "", 0⟩] ∧
    LP.decodeSt "Cq9Z" = ⟨false, 0, "4", 9, 4, 4⟩ := by decide

/-- C9 as stated is false: when the input ends while a triplet group is open
with fewer than 3 members (`"tC D"`), no error or flag of any kind is raised
(the run ends with no offending character) and the renderer does not close
the bracket it opened — the output contains a tuplet-open fragment and no
tuplet-close fragment. -/
theorem c9_counterexample :
    LP.Frag.tupletOpen ∈ (LP.decode "tC D").1 ∧
    LP.Frag.tupletClose ∉ (LP.decode "tC D").1 ∧
    LP.decodeErr "tC D" = none := by decide

/-- C9 (amended): a triplet left open at end of input is neither flagged nor
defensively closed — for `"tC D"` the run ends without any error value, the
printed output has one tuplet-open bracket and zero tuplet-close brackets
(an unmatched open bracket), and the decoder state still shows the group
open at position 2. -/
theorem c9_unclosed_triplet :
    (LP.decode "tC D").1.count LP.Frag.tupletOpen = 1 ∧
    (LP.decode "tC D").1.count LP.Frag.tupletClose = 0 ∧
    LP.decodeErr "tC D" = none ∧
    (LP.decodeSt "tC D").in_triplet = true ∧
    (LP.decodeSt "tC D").notes_in_triplet = 2 := by decide

end Godsong
